import Mathlib

/-!
Shallow embedding of `linenoise.py` (deadsy/pycli): raw-mode terminal session,
escape-sequence column probe, minimal line-edit loop, and the history ring.
Strings are modelled as `List Char`; the input byte stream of a read loop is a
`List Char` (an exhausted list models end of input, where `os.read` returns the
empty string). Exceptions raised by the Python code are modelled with `Except`.
-/

namespace Linenoise

/-! ### Key codes (linenoise.py lines 34-53) -/

def KEY_NULL : Nat := 0

def CTRL_C : Nat := 3

def ENTER : Nat := 13

def ESC : Nat := 27

def BACKSPACE : Nat := 127

def DEFAULT_HISTORY_MAX_LEN : Nat := 100

/-! ### Termios attributes and the raw-mode transformation (lines 135-161)

The termios flag constants carry their Linux numeric values.  The attribute
record models the fields `enable_rawmode` touches; `mkRaw` is the pure content
of the mutation block in `enable_rawmode` (clear input/output/local flags, set
CS8, VMIN=1, VTIME=0).  Bit clearing `x &= ~m` on these nonnegative C flag
words is modelled inside a 32-bit universe. -/

def BRKINT : Nat := 2

def ICRNL : Nat := 256

def INPCK : Nat := 16

def ISTRIP : Nat := 32

def IXON : Nat := 1024

def OPOST : Nat := 1

def CS8 : Nat := 48

def ECHO : Nat := 8

def ICANON : Nat := 2

def IEXTEN : Nat := 32768

def ISIG : Nat := 1

structure Termios where
  iflag : Nat
  oflag : Nat
  cflag : Nat
  lflag : Nat
  vmin : Nat
  vtime : Nat
deriving DecidableEq

def mkRaw (t : Termios) : Termios :=
  { iflag := t.iflag &&& (4294967295 ^^^ (BRKINT ||| ICRNL ||| INPCK ||| ISTRIP ||| IXON)),
    oflag := t.oflag &&& (4294967295 ^^^ OPOST),
    cflag := t.cflag ||| CS8,
    lflag := t.lflag &&& (4294967295 ^^^ (ECHO ||| ICANON ||| IEXTEN ||| ISIG)),
    vmin := 1,
    vtime := 0 }

/-! ### The linenoise object state (lines 127-133) -/

structure LNState where
  history : List (List Char)
  history_maxlen : Nat
  rawmode : Bool
  orig_termios : Option Termios
  atexit_registered : Bool
deriving DecidableEq

def mkLN (h : List (List Char)) (m : Nat) : LNState :=
  { history := h, history_maxlen := m, rawmode := false,
    orig_termios := none, atexit_registered := false }

def freshLN : LNState := mkLN [] DEFAULT_HISTORY_MAX_LEN

/-- World: terminal attribute register plus the linenoise object. -/
structure World where
  attrs : Termios
  ln : LNState
deriving DecidableEq

/-- Model of `enable_rawmode(fd)` (lines 135-161): fails with -1 on a
non-tty, otherwise registers the exit hook, snapshots the current attributes
into `orig_termios`, and installs the raw attribute set. -/
def enable_rawmode (isatty : Bool) (w : World) : Int × World :=
  if isatty then
    (0, { attrs := mkRaw w.attrs,
          ln := { w.ln with atexit_registered := true,
                            orig_termios := some w.attrs,
                            rawmode := true } })
  else (-1, w)

/-- Model of `disable_rawmode(fd)` (lines 163-167): restores the snapshot and
clears the flag only when `rawmode` is set. -/
def disable_rawmode (w : World) : World :=
  if w.ln.rawmode then
    { attrs := w.ln.orig_termios.getD w.attrs, ln := { w.ln with rawmode := false } }
  else w

/-! ### History ring (lines 279-319) -/

/-- Model of `history_add(line)` (lines 279-291). -/
def history_add (line : List Char) (s : LNState) : LNState :=
  if s.history_maxlen = 0 then s
  else if line ∈ s.history then s
  else if s.history.length = s.history_maxlen then
    { s with history := s.history.tail ++ [line] }
  else
    { s with history := s.history ++ [line] }

/-- Model of `history_set_maxlen(n)` (lines 293-301): ignore a negative `n`,
otherwise install the new maximum and, when the current length exceeds it,
truncate keeping the latest entries (`history[current_length - maxlen:]`). -/
def history_set_maxlen (n : Int) (s : LNState) : LNState :=
  if n < 0 then s
  else if s.history.length > n.toNat then
    { s with history_maxlen := n.toNat,
             history := s.history.drop (s.history.length - n.toNat) }
  else { s with history_maxlen := n.toNat }

/-- Python 2 `str.strip()` whitespace test (space, tab, LF, CR, VT, FF). -/
def isSpaceB (c : Char) : Bool :=
  c = ' ' || c = '\t' || c = '\n' || c = '\r' || c = '\x0b' || c = '\x0c'

/-- Model of Python `l.strip()`: drop leading and trailing whitespace. -/
def stripChars (s : List Char) : List Char :=
  ((s.dropWhile isSpaceB).reverse.dropWhile isSpaceB).reverse

/-- Model of Python `'\x5cn'.join(history)`: newline-joined entries, as written
by `history_save` (lines 303-310; umask/chmod are not modelled). -/
def joinNl : List (List Char) → List Char
  | [] => []
  | [x] => x
  | x :: y :: t => x ++ '\n' :: joinNl (y :: t)

def history_save (s : LNState) : List Char :=
  joinNl s.history

/-- Model of Python `f.readlines()`: split into lines, each keeping its
trailing newline; the last line may lack one; an empty file gives no lines. -/
def splitLines : List Char → List (List Char)
  | [] => []
  | c :: cs =>
    if c = '\n' then ['\n'] :: splitLines cs
    else
      match splitLines cs with
      | [] => [[c]]
      | l :: ls => (c :: l) :: ls

/-- Model of `history_load(fname)` (lines 312-319): `none` models a missing
file; otherwise the ring is replaced wholesale by the stripped lines. -/
def history_load (file : Option (List Char)) (s : LNState) : LNState :=
  match file with
  | none => { s with history := [] }
  | some content => { s with history := (splitLines content).map stripChars }

/-! ### Cursor-position / column probe (lines 57-101)

`os.read(ifd, 1)` yields one character, or the empty string at end of input;
an element of the read buffer is therefore an `Option Char` (`none` = `''`). -/

/-- Byte-collection loop of `get_cursor_position` (lines 64-68): append reads
until the last read is `R` or 32 bytes have been appended.  Returns the buffer
and the unconsumed remainder of the stream. -/
def gcpReadAux : Nat → List Char → List (Option Char) → List (Option Char) × List Char
  | 0, s, acc => (acc, s)
  | fuel + 1, s, acc =>
    match s with
    | [] => gcpReadAux fuel [] (acc ++ [none])
    | c :: r =>
      if c = 'R' then (acc ++ [some c], r)
      else gcpReadAux fuel r (acc ++ [some c])

/-- Python-style list split on `;` (`''.join(buf).split(';')`). -/
def splitSem : List Char → List (List Char)
  | [] => [[]]
  | c :: cs =>
    if c = ';' then [] :: splitSem cs
    else
      match splitSem cs with
      | [] => [[c]]
      | l :: ls => (c :: l) :: ls

def digitsToNat (ds : List Char) : Nat :=
  ds.foldl (fun a c => a * 10 + (c.toNat - 48)) 0

/-- Model of Python 2 `int(s, 10)`: optional surrounding whitespace, optional
sign, then one or more decimal digits; anything else raises `ValueError`. -/
def pyInt (s : List Char) : Except Unit Int :=
  match stripChars s with
  | [] => Except.error ()
  | c :: rest =>
    if c = '-' then
      if rest ≠ [] ∧ rest.all Char.isDigit then Except.ok (-(digitsToNat rest : Int))
      else Except.error ()
    else if c = '+' then
      if rest ≠ [] ∧ rest.all Char.isDigit then Except.ok ((digitsToNat rest : Int))
      else Except.error ()
    else if (c :: rest).all Char.isDigit then Except.ok ((digitsToNat (c :: rest) : Int))
    else Except.error ()

/-- Parse step of `get_cursor_position` (lines 70-75): the framing check
`buf[0] != ESC or buf[1] != '[' or buf[-1] != 'R'` returns -1; otherwise the
interior is joined, split on `;`, unpacked into exactly two fields (a
`ValueError` otherwise), and the cols field is parsed with `int(_, 10)`. -/
def gcpParse (buf : List (Option Char)) : Except Unit Int :=
  if buf.head? = some (some (Char.ofNat ESC)) ∧ buf[1]? = some (some '[')
      ∧ buf.getLast? = some (some 'R') then
    match splitSem (((buf.drop 2).dropLast).reduceOption) with
    | [_rows, cols] => pyInt cols
    | _ => Except.error ()
  else Except.ok (-1)

/-- Model of `get_cursor_position(ifd, ofd)` (lines 57-75); the query write is
assumed to succeed.  Returns the result (or raised error) and the rest of the
input stream. -/
def get_cursor_position (stream : List Char) : Except Unit Int × List Char :=
  let br := gcpReadAux 32 stream []
  (gcpParse br.1, br.2)

/-- Model of `get_columns(ifd, ofd)` (lines 77-101): `ioctlWinsz` is the
result of the `TIOCGWINSZ` ioctl (`none` models the exception path); escape
writes are assumed to succeed and the two cursor queries consume from the same
input stream. -/
def get_columns (ioctlWinsz : Option (Nat × Nat)) (stream : List Char) : Except Unit Int :=
  let cols0 : Nat := match ioctlWinsz with
    | some rc => rc.2
    | none => 0
  if cols0 ≠ 0 then Except.ok (cols0 : Int)
  else
    match get_cursor_position stream with
    | (Except.error e, _) => Except.error e
    | (Except.ok start, s1) =>
      if start < 0 then Except.ok 80
      else
        match (get_cursor_position s1).1 with
        | Except.error e => Except.error e
        | Except.ok cols =>
          if cols < 0 then Except.ok 80 else Except.ok cols

/-! ### Line-edit state machine (lines 113-123, 190-213) -/

/-- The fields of `line_state` that the minimal edit loop touches, plus the
bytes echoed to the output descriptor. -/
structure EditLS where
  buf : List Char
  pos : Nat
  out : List Char
deriving DecidableEq

/-- Model of `edit_insert(l, c)` (lines 190-195): only when the cursor is at
the end of the buffer, append the byte, advance the cursor and echo it. -/
def edit_insert (l : EditLS) (c : Char) : EditLS :=
  if l.buf.length = l.pos then
    { buf := l.buf ++ [c], pos := l.pos + 1, out := l.out ++ [c] }
  else l

inductive EditOutcome where
  | done : List Char → EditOutcome
  | cancelled : EditOutcome
  | eofExn : EditOutcome
deriving DecidableEq

/-- The `while True` loop of `edit` (lines 205-212): Enter breaks with the
buffer, Ctrl-C returns `None`, any other byte goes to `edit_insert`.  An
exhausted stream models `os.read` returning `''`, on which `ord('')` raises. -/
def editLoop : List Char → EditLS → EditOutcome × EditLS
  | [], l => (EditOutcome.eofExn, l)
  | c :: rest, l =>
    if c.toNat = ENTER then (EditOutcome.done l.buf, l)
    else if c.toNat = CTRL_C then (EditOutcome.cancelled, l)
    else editLoop rest (edit_insert l c)

/-- Model of `edit(ifd, ofd, prompt)` (lines 197-213): adds the empty
placeholder history entry, then runs the loop.  The prompt write is assumed to
succeed.  `Except.error` models the `TypeError` raised by `ord('')` at end of
input.  Returns the Python return value, the final line state, and the
linenoise object state. -/
def edit (s : LNState) (input : List Char) :
    Except Unit (Option (List Char)) × EditLS × LNState :=
  let s1 := history_add [] s
  let ol := editLoop input { buf := [], pos := 0, out := [] }
  match ol.1 with
  | EditOutcome.done line => (Except.ok (some line), ol.2, s1)
  | EditOutcome.cancelled => (Except.ok none, ol.2, s1)
  | EditOutcome.eofExn => (Except.error (), ol.2, s1)

/-- Outcome of `read_raw`: a normal return with the line (or `None`), or an
exception propagating out of `edit`; both carry the final world state. -/
inductive RRResult where
  | ret : Option (List Char) → World → RRResult
  | exn : World → RRResult
deriving DecidableEq

/-- Model of `read_raw(prompt)` (lines 215-222): enable raw mode (returning
`None` if that fails), run `edit`, then disable raw mode and return.  There is
no handler around `edit`, so an exception propagates before `disable_rawmode`
is reached. -/
def read_raw (isatty : Bool) (w : World) (input : List Char) : RRResult :=
  let rw := enable_rawmode isatty w
  if rw.1 = -1 then RRResult.ret none rw.2
  else
    let r := edit rw.2.ln input
    let w2 : World := { attrs := rw.2.attrs, ln := r.2.2 }
    match r.1 with
    | Except.error _ => RRResult.exn w2
    | Except.ok s => RRResult.ret s (disable_rawmode w2)

/-- The history-ring invariants of the spec: entries pairwise distinct, and
the length bounded by `history_maxlen`. -/
def HistInv (s : LNState) : Prop :=
  s.history.Nodup ∧ s.history.length ≤ s.history_maxlen

/-- A sample canonical (cooked-mode) attribute set: ICRNL|IXON input flags,
OPOST output, ECHO|ICANON|ISIG local flags. -/
def cookedAttrs : Termios :=
  { iflag := 1280, oflag := 1, cflag := 0, lflag := 11, vmin := 0, vtime := 0 }

def world0 : World := { attrs := cookedAttrs, ln := freshLN }

instance exceptDecidableEq {ε α : Type} [DecidableEq ε] [DecidableEq α] :
    DecidableEq (Except ε α) := fun x y =>
  match x, y with
  | Except.ok a, Except.ok b =>
    if h : a = b then Decidable.isTrue (by rw [h])
    else Decidable.isFalse (by intro he; injection he with h2; exact h h2)
  | Except.error a, Except.error b =>
    if h : a = b then Decidable.isTrue (by rw [h])
    else Decidable.isFalse (by intro he; injection he with h2; exact h h2)
  | Except.ok _, Except.error _ => Decidable.isFalse (by intro he; exact Except.noConfusion he)
  | Except.error _, Except.ok _ => Decidable.isFalse (by intro he; exact Except.noConfusion he)

/-! ### Theorems -/

/-- C1: the claim fails on the code.  On end of input mid-edit (here the
stream `['h']` is exhausted before Enter), `ord('')` raises inside `edit`,
and `read_raw` has no handler, so the exception propagates with the session
still flagged raw and the raw attribute set still installed — the terminal
attributes are not restored before the call exits, contradicting the claim
that no outcome of `read_raw` leaves the terminal in the raw state. -/
theorem C1_read_raw_eof_leaves_raw_mode :
    read_raw true world0 ['h'] =
      RRResult.exn
        { attrs := mkRaw cookedAttrs,
          ln := { history := [[]], history_maxlen := 100, rawmode := true,
                  orig_termios := some cookedAttrs, atexit_registered := true } } ∧
    mkRaw cookedAttrs ≠ cookedAttrs := by
  constructor
  · decide
  · decide

/-- C2: on an empty buffer, the byte stream `h`,`i`,Enter makes `edit` return
the line `"hi"`, and the stream `h`,`i`,Ctrl-C makes `edit` return `None`
(the cancel outcome), never `"hi"`. -/
theorem C2_edit_enter_and_interrupt :
    (edit freshLN ['h', 'i', '\x0d']).1 = Except.ok (some ['h', 'i']) ∧
    (edit freshLN ['h', 'i', '\x03']).1 = Except.ok none ∧
    (edit freshLN ['h', 'i', '\x03']).1 ≠ Except.ok (some ['h', 'i']) := by
  refine ⟨by decide, by decide, by decide⟩

/-- C3 counterexample: the claim fails on the code.  The edit loop does not
recognize Backspace: byte 127 reaches `edit_insert` and is appended, so the
stream `h`,Backspace,Enter returns the two-character line `h`,`\x7f` — not
the empty line `""` the claim requires. -/
theorem C3_backspace_counterexample :
    (edit freshLN ['h', '\x7f', '\x0d']).1 = Except.ok (some ['h', '\x7f']) ∧
    (edit freshLN ['h', '\x7f', '\x0d']).1 ≠ Except.ok (some []) := by
  refine ⟨by decide, by decide⟩

/-- C3 amended: the edit loop treats Backspace like any other non-Enter,
non-Ctrl-C byte — it is handed to `edit_insert` (and hence appended at the
end of the buffer), so `h`,Backspace,Enter returns the line `h`,`\x7f`. -/
theorem C3_backspace_amended :
    (∀ (rest : List Char) (l : EditLS),
      editLoop ('\x7f' :: rest) l = editLoop rest (edit_insert l '\x7f')) ∧
    (edit freshLN ['h', '\x7f', '\x0d']).1 = Except.ok (some ['h', '\x7f']) := by
  constructor
  · intro rest l
    simp only [editLoop]
    rw [if_neg (by decide), if_neg (by decide)]
  · decide

/-- C4 counterexample: the claim fails on the code.  The well-framed but
semicolon-less response `ESC [ 1 2 R` does not match the documented
`ESC [ rows ; cols R` framing, yet `get_columns` does not return the default
width 80: the two-field unpacking raises an uncaught `ValueError`, which the
model records as `Except.error`. -/
theorem C4_malformed_response_crashes :
    get_columns none ['\x1b', '[', '1', '2', 'R'] = Except.error () ∧
    get_columns none ['\x1b', '[', '1', '2', 'R'] ≠ Except.ok 80 := by
  refine ⟨by decide, by decide⟩

/-- C6 counterexample: the claim fails on the code.  Starting from the empty
ring, the documented mutating operation `load` installs the file's lines
verbatim: a file whose two lines are both `a` yields the ring `["a","a"]`,
violating the no-duplicates invariant. -/
theorem C6_load_breaks_invariants :
    (history_load (some ['a', '\n', 'a']) freshLN).history = [['a'], ['a']] ∧
    ¬ HistInv (history_load (some ['a', '\n', 'a']) freshLN) := by
  refine ⟨by decide, fun h => absurd h.1 (by decide)⟩

/-- C7 counterexample: the claim fails on the code.  `load` strips all
leading and trailing whitespace of each line (Python `strip()`), not only the
trailing newline: a ring holding the single entry `"a "` does not round-trip
through `save` then `load` — it comes back as `"a"`. -/
theorem C7_roundtrip_counterexample :
    (history_load (some (history_save (mkLN [['a', ' ']] 100)))
        (mkLN [['a', ' ']] 100)).history = [['a']] ∧
    (history_load (some (history_save (mkLN [['a', ' ']] 100)))
        (mkLN [['a', ' ']] 100)).history ≠ (mkLN [['a', ' ']] 100).history := by
  refine ⟨by decide, by decide⟩

/-- C8 counterexample: the claim fails on the code.  From a cooked terminal,
a second `enable_rawmode` without an intervening disable succeeds (returns 0),
is not a no-op, and silently re-snapshots the already-raw attributes into
`orig_termios`; the following disable then restores the raw attributes, not
the original ones. -/
theorem C8_double_enable_counterexample :
    (enable_rawmode true world0).1 = 0 ∧
    (enable_rawmode true ((enable_rawmode true world0).2)).1 = 0 ∧
    (enable_rawmode true ((enable_rawmode true world0).2)).2 ≠
      (enable_rawmode true world0).2 ∧
    ((enable_rawmode true ((enable_rawmode true world0).2)).2).ln.orig_termios =
      some (mkRaw cookedAttrs) ∧
    some (mkRaw cookedAttrs) ≠ some cookedAttrs ∧
    (disable_rawmode ((enable_rawmode true ((enable_rawmode true world0).2)).2)).attrs ≠
      cookedAttrs := by
  refine ⟨by decide, by decide, by decide, by decide, by decide, by decide⟩

/-- C9: the claim fails on the code, and the code contradicts its own comment
("The latest history entry is always our current buffer").  `edit` adds the
empty placeholder entry at the start, but nothing ever replaces or removes
it: after the stream `h`,`i`,Enter the ring is `[""]`, not `["hi"]`, and
after `h`,`i`,Ctrl-C the placeholder is still present. -/
theorem C9_history_placeholder_not_replaced :
    (edit freshLN ['h', 'i', '\x0d']).1 = Except.ok (some ['h', 'i']) ∧
    ((edit freshLN ['h', 'i', '\x0d']).2.2).history = [[]] ∧
    ((edit freshLN ['h', 'i', '\x03']).2.2).history = [[]] ∧
    ([[]] : List (List Char)) ≠ [['h', 'i']] := by
  refine ⟨by decide, by decide, by decide, by decide⟩

/-- C10 counterexample: the claim fails on the code.  The byte `ESC` (27) is
neither Enter, nor the interrupt byte, nor printable, yet the edit loop does
not ignore it: it is inserted into the buffer and echoed to the output
stream. -/
theorem C10_unrecognized_byte_mutates :
    (edit freshLN ['\x1b', '\x0d']).1 = Except.ok (some ['\x1b']) ∧
    (edit freshLN ['\x1b', '\x0d']).2.1 =
      { buf := ['\x1b'], pos := 1, out := ['\x1b'] } := by
  refine ⟨by decide, by decide⟩

/-- C10 amended: every byte other than Enter (13) and Ctrl-C (3) — printable
or not — is handed to `edit_insert`, which, whenever the cursor sits at the
end of the buffer, appends the byte, advances the cursor and echoes it; no
byte is ignored. -/
theorem C10_all_bytes_inserted_amended :
    (∀ (c : Char) (rest : List Char) (l : EditLS),
      c.toNat ≠ ENTER → c.toNat ≠ CTRL_C →
      editLoop (c :: rest) l = editLoop rest (edit_insert l c)) ∧
    (∀ (l : EditLS) (c : Char), l.pos = l.buf.length →
      edit_insert l c = { buf := l.buf ++ [c], pos := l.pos + 1, out := l.out ++ [c] }) := by
  constructor
  · intro c rest l h13 h3
    simp only [editLoop]
    rw [if_neg h13, if_neg h3]
  · intro l c h
    simp only [edit_insert]
    rw [if_pos h.symm]

/-- Witness for the amended C10 theorem at concrete inputs. -/
theorem C10_all_bytes_inserted_amended_witness :
    editLoop ['\x1b'] { buf := [], pos := 0, out := [] } =
      editLoop [] (edit_insert { buf := [], pos := 0, out := [] } '\x1b') ∧
    edit_insert { buf := ['h'], pos := 1, out := ['h'] } 'q' =
      { buf := ['h', 'q'], pos := 2, out := ['h', 'q'] } := by
  exact ⟨C10_all_bytes_inserted_amended.1 '\x1b' [] _ (by decide) (by decide),
    C10_all_bytes_inserted_amended.2 { buf := ['h'], pos := 1, out := ['h'] } 'q' rfl⟩

/-- C5: `history_add` is a no-op when `maxlen = 0`, a no-op when the line
exactly equals an existing entry, evicts the oldest entry before appending
when the ring is at capacity, and otherwise just appends the line as newest;
with `maxlen = 2`, adding `x`,`y`,`z` in order leaves exactly `[y, z]`. -/
theorem C5_history_add_spec (s : LNState) (line : List Char) :
    (s.history_maxlen = 0 → history_add line s = s) ∧
    (line ∈ s.history → history_add line s = s) ∧
    (s.history_maxlen ≠ 0 → line ∉ s.history →
      s.history.length = s.history_maxlen →
      (history_add line s).history = s.history.tail ++ [line]) ∧
    (s.history_maxlen ≠ 0 → line ∉ s.history →
      s.history.length ≠ s.history_maxlen →
      (history_add line s).history = s.history ++ [line]) ∧
    (history_add ['z'] (history_add ['y'] (history_add ['x'] (mkLN [] 2)))).history =
      [['y'], ['z']] := by
  refine ⟨?_, ?_, ?_, ?_, by decide⟩
  · intro h0
    simp [history_add, h0]
  · intro hmem
    by_cases h0 : s.history_maxlen = 0
    · simp [history_add, h0]
    · simp [history_add, h0, hmem]
  · intro h0 hmem hlen
    simp [history_add, h0, hmem, hlen]
  · intro h0 hmem hlen
    simp [history_add, h0, hmem, hlen]

/-- Witness for the C5 theorem: the no-op duplicate case at a concrete ring,
and the concrete `x`,`y`,`z` run with `maxlen = 2`. -/
theorem C5_history_add_spec_witness :
    history_add ['q'] (mkLN [['q']] 5) = mkLN [['q']] 5 ∧
    (history_add ['z'] (history_add ['y'] (history_add ['x'] (mkLN [] 2)))).history =
      [['y'], ['z']] := by
  exact ⟨(C5_history_add_spec (mkLN [['q']] 5) ['q']).2.1 (by decide),
    (C5_history_add_spec (mkLN [] 2) ['q']).2.2.2.2⟩

/-- C6 amended: the ring invariants (no duplicate entries, length bounded by
`maxlen`) are preserved by `add` and `set_max_len` — hence hold along any
sequence of those operations from the empty ring — but `load` (see the
counterexample) replaces the ring with the file's lines verbatim and can
violate them. -/
theorem C6_invariants_amended :
    (∀ (s : LNState) (line : List Char), HistInv s → HistInv (history_add line s)) ∧
    (∀ (s : LNState) (n : Int), HistInv s → HistInv (history_set_maxlen n s)) := by
  constructor
  · intro s line h
    obtain ⟨hnd, hlen⟩ := h
    unfold history_add
    by_cases h0 : s.history_maxlen = 0
    · rw [if_pos h0]; exact ⟨hnd, hlen⟩
    · rw [if_neg h0]
      by_cases hmem : line ∈ s.history
      · rw [if_pos hmem]; exact ⟨hnd, hlen⟩
      · rw [if_neg hmem]
        by_cases hcap : s.history.length = s.history_maxlen
        · rw [if_pos hcap]
          constructor
          · refine List.Nodup.append ((List.tail_sublist _).nodup hnd)
              (List.nodup_singleton _) ?_
            intro a ha hb
            rw [List.mem_singleton.mp hb] at ha
            exact hmem (List.mem_of_mem_tail ha)
          · simp only [List.length_append, List.length_tail, List.length_singleton]
            omega
        · rw [if_neg hcap]
          constructor
          · refine List.Nodup.append hnd (List.nodup_singleton _) ?_
            intro a ha hb
            rw [List.mem_singleton.mp hb] at ha
            exact hmem ha
          · simp only [List.length_append, List.length_singleton]
            omega
  · intro s n h
    obtain ⟨hnd, hlen⟩ := h
    unfold history_set_maxlen
    by_cases hn : n < 0
    · rw [if_pos hn]; exact ⟨hnd, hlen⟩
    · rw [if_neg hn]
      by_cases hgt : s.history.length > n.toNat
      · rw [if_pos hgt]
        refine ⟨(List.drop_sublist _ _).nodup hnd, ?_⟩
        simp only [List.length_drop]
        omega
      · rw [if_neg hgt]
        refine ⟨hnd, ?_⟩
        show s.history.length ≤ n.toNat
        omega

/-- Witness for the amended C6 theorem: both invariant-preserving operations
applied at the fresh empty ring. -/
theorem C6_invariants_amended_witness :
    HistInv (history_add ['a'] freshLN) ∧ HistInv (history_set_maxlen 1 freshLN) := by
  exact ⟨C6_invariants_amended.1 freshLN ['a'] ⟨by decide, by decide⟩,
    C6_invariants_amended.2 freshLN 1 ⟨by decide, by decide⟩⟩

/-- A dropWhile that removes nothing, detected by length. -/
theorem dropWhile_eq_self_of_length {p : Char → Bool} {l : List Char}
    (h : (l.dropWhile p).length = l.length) : l.dropWhile p = l :=
  (List.dropWhile_sublist p).eq_of_length h

/-- If stripping is the identity on `x`, then neither the leading nor the
trailing whitespace pass removes anything. -/
theorem strip_eq_self_drops {x : List Char} (h : stripChars x = x) :
    x.dropWhile isSpaceB = x ∧ x.reverse.dropWhile isSpaceB = x.reverse := by
  have hx : ((x.dropWhile isSpaceB).reverse.dropWhile isSpaceB).reverse = x := h
  have la : (x.dropWhile isSpaceB).length ≤ x.length :=
    (List.dropWhile_sublist _).length_le
  have lb : ((x.dropWhile isSpaceB).reverse.dropWhile isSpaceB).length ≤
      (x.dropWhile isSpaceB).reverse.length :=
    (List.dropWhile_sublist _).length_le
  have hlen : ((x.dropWhile isSpaceB).reverse.dropWhile isSpaceB).length = x.length := by
    rw [← List.length_reverse ((x.dropWhile isSpaceB).reverse.dropWhile isSpaceB), hx]
  rw [List.length_reverse] at lb
  have ha : x.dropWhile isSpaceB = x := dropWhile_eq_self_of_length (by omega)
  rw [ha] at hx
  refine ⟨ha, ?_⟩
  have hb := congrArg List.reverse hx
  rwa [List.reverse_reverse] at hb

/-- Appending a newline to a whitespace-free-at-the-edges, nonempty line and
stripping gives the line back: `strip` removes exactly the added newline. -/
theorem stripChars_append_newline {x : List Char} (hne : x ≠ [])
    (h : stripChars x = x) : stripChars (x ++ ['\n']) = x := by
  obtain ⟨hd, hr⟩ := strip_eq_self_drops h
  obtain ⟨c, xs, rfl⟩ : ∃ c xs, x = c :: xs := by
    cases x with
    | nil => exact absurd rfl hne
    | cons c xs => exact ⟨c, xs, rfl⟩
  have hc : ¬ (isSpaceB c = true) := by
    intro hcc
    rw [List.dropWhile_cons, if_pos hcc] at hd
    have h2 : (xs.dropWhile isSpaceB).length ≤ xs.length :=
      (List.dropWhile_sublist _).length_le
    rw [hd] at h2
    simp at h2
  show (((c :: xs ++ ['\n']).dropWhile isSpaceB).reverse.dropWhile isSpaceB).reverse = c :: xs
  rw [List.cons_append, List.dropWhile_cons, if_neg hc, ← List.cons_append,
    List.reverse_append]
  show ((['\n'] ++ (c :: xs).reverse).dropWhile isSpaceB).reverse = c :: xs
  rw [List.singleton_append, List.dropWhile_cons, if_pos (by decide), hr,
    List.reverse_reverse]

/-- A nonempty newline-free character list is read back as a single line. -/
theorem splitLines_no_nl {x : List Char} (hne : x ≠ []) (h : '\n' ∉ x) :
    splitLines x = [x] := by
  induction x with
  | nil => exact absurd rfl hne
  | cons c xs ih =>
    have hc : ¬ (c = '\n') := by
      intro hcc
      exact h (by rw [hcc]; exact List.mem_cons_self _ _)
    simp only [splitLines]
    rw [if_neg hc]
    by_cases hxe : xs = []
    · subst hxe
      simp [splitLines]
    · rw [ih hxe (fun hm => h (List.mem_cons_of_mem _ hm))]

/-- Reading lines of `x ++ '\n' :: t` when `x` is newline-free peels off the
first line `x ++ ['\n']`. -/
theorem splitLines_append_nl {x : List Char} (t : List Char) (h : '\n' ∉ x) :
    splitLines (x ++ '\n' :: t) = (x ++ ['\n']) :: splitLines t := by
  induction x with
  | nil =>
    simp [splitLines]
  | cons c xs ih =>
    have hc : ¬ (c = '\n') := by
      intro hcc
      exact h (by rw [hcc]; exact List.mem_cons_self _ _)
    have ih2 := ih (fun hm => h (List.mem_cons_of_mem _ hm))
    simp only [List.cons_append, splitLines, List.append_eq]
    rw [if_neg hc, ih2]

/-- Round trip of the newline-joined file format: if every entry is nonempty,
newline-free and has no surrounding whitespace, splitting the joined text
into lines and stripping each line restores the entries. -/
theorem loadSave_roundtrip (h : List (List Char))
    (H : ∀ e ∈ h, e ≠ [] ∧ stripChars e = e ∧ '\n' ∉ e) :
    (splitLines (joinNl h)).map stripChars = h := by
  induction h with
  | nil => simp [joinNl, splitLines]
  | cons x t ih =>
    cases t with
    | nil =>
      obtain ⟨hne, hs, hn⟩ := H x (List.mem_cons_self _ _)
      simp [joinNl, splitLines_no_nl hne hn, hs]
    | cons y u =>
      obtain ⟨hne, hs, hn⟩ := H x (List.mem_cons_self _ _)
      have ih2 := ih (fun e he => H e (List.mem_cons_of_mem _ he))
      simp only [joinNl]
      rw [splitLines_append_nl _ hn, List.map_cons, stripChars_append_newline hne hs, ih2]

/-- C7 amended: `save` followed by `load` restores the identical ordered
sequence of entries whenever every entry is nonempty, newline-free and
carries no leading or trailing whitespace (in particular for `["a","b","c"]`),
and loading a missing file yields an empty ring; in general, however, `load`
strips all surrounding whitespace of each line, not only the trailing
newline (see the counterexample). -/
theorem C7_save_load_amended :
    (∀ s : LNState,
      (∀ e ∈ s.history, e ≠ [] ∧ stripChars e = e ∧ '\n' ∉ e) →
      (history_load (some (history_save s)) s).history = s.history) ∧
    (∀ s : LNState, (history_load none s).history = []) := by
  constructor
  · intro s H
    simp only [history_load, history_save]
    exact loadSave_roundtrip s.history H
  · intro s
    rfl

/-- Witness for the amended C7 theorem: the `["a","b","c"]` ring of the claim
round-trips through `save` then `load`, and a missing file loads as empty. -/
theorem C7_save_load_amended_witness :
    (history_load (some (history_save (mkLN [['a'], ['b'], ['c']] 100)))
        (mkLN [['a'], ['b'], ['c']] 100)).history = (mkLN [['a'], ['b'], ['c']] 100).history ∧
    (history_load none freshLN).history = [] := by
  exact ⟨C7_save_load_amended.1 (mkLN [['a'], ['b'], ['c']] 100) (by decide),
    C7_save_load_amended.2 freshLN⟩

/-- The escape-response collection loop consumes at most `fuel` bytes. -/
theorem gcpReadAux_consume (fuel : Nat) (s : List Char) (acc : List (Option Char)) :
    s.length ≤ ((gcpReadAux fuel s acc).2).length + fuel := by
  induction fuel generalizing s acc with
  | zero => simp [gcpReadAux]
  | succ n ih =>
    cases s with
    | nil => simp [gcpReadAux]
    | cons c r =>
      simp only [gcpReadAux]
      by_cases hc : c = 'R'
      · rw [if_pos hc]
        simp
      · rw [if_neg hc]
        have h2 := ih r (acc ++ [some c])
        simp only [List.length_cons]
        omega

/-- If no `R` occurs among the first `fuel` stream bytes (and none is in the
accumulator), the collected buffer contains no `R`. -/
theorem gcpReadAux_no_R (fuel : Nat) (s : List Char) (acc : List (Option Char))
    (hs : 'R' ∉ s.take fuel) (hacc : some 'R' ∉ acc) :
    some 'R' ∉ ((gcpReadAux fuel s acc).1) := by
  induction fuel generalizing s acc with
  | zero => simpa [gcpReadAux] using hacc
  | succ n ih =>
    cases s with
    | nil =>
      simp only [gcpReadAux]
      refine ih [] (acc ++ [none]) (by simp) ?_
      simp [hacc]
    | cons c r =>
      have hcR : ¬ (c = 'R') := by
        intro hcc
        refine hs ?_
        rw [List.take_succ_cons, hcc]
        exact List.mem_cons_self _ _
      simp only [gcpReadAux]
      rw [if_neg hcR]
      refine ih r (acc ++ [some c]) ?_ ?_
      · intro hm
        refine hs ?_
        rw [List.take_succ_cons]
        exact List.mem_cons_of_mem _ hm
      · simp only [List.mem_append, List.mem_singleton]
        rintro (h1 | h2)
        · exact hacc h1
        · exact hcR (Option.some.inj h2).symm

/-- A buffer without an `R` fails the `ESC [ ... R` framing check, so the
parse step returns the sentinel -1. -/
theorem gcpParse_of_no_R {buf : List (Option Char)} (h : some 'R' ∉ buf) :
    gcpParse buf = Except.ok (-1) := by
  unfold gcpParse
  rw [if_neg]
  rintro ⟨_h1, _h2, h3⟩
  exact h (List.mem_of_getLast?_eq_some h3)

/-- A buffer whose first read byte is not `ESC` fails the framing check. -/
theorem gcpParse_head_fail {buf : List (Option Char)}
    (h : buf.head? ≠ some (some (Char.ofNat ESC))) :
    gcpParse buf = Except.ok (-1) := by
  unfold gcpParse
  rw [if_neg]
  rintro ⟨h1, _h2, _h3⟩
  exact h h1

/-- A buffer whose second read byte is not `[` fails the framing check. -/
theorem gcpParse_second_fail {buf : List (Option Char)}
    (h : buf[1]? ≠ some (some '[')) :
    gcpParse buf = Except.ok (-1) := by
  unfold gcpParse
  rw [if_neg]
  rintro ⟨_h1, h2, _h3⟩
  exact h h2

/-- The collection loop only ever appends: its accumulator is a prefix of the
returned buffer. -/
theorem gcpReadAux_prefix (fuel : Nat) (s : List Char) (acc : List (Option Char)) :
    ∃ t, (gcpReadAux fuel s acc).1 = acc ++ t := by
  induction fuel generalizing s acc with
  | zero => exact ⟨[], by simp [gcpReadAux]⟩
  | succ n ih =>
    cases s with
    | nil =>
      obtain ⟨t, ht⟩ := ih [] (acc ++ [none])
      exact ⟨[none] ++ t, by simp [gcpReadAux, ht]⟩
    | cons c r =>
      by_cases hR : c = 'R'
      · exact ⟨[some c], by simp [gcpReadAux, hR]⟩
      · obtain ⟨t, ht⟩ := ih r (acc ++ [some c])
        exact ⟨[some c] ++ t, by simp [gcpReadAux, hR, ht]⟩

/-- The first buffer element collected by the loop is the first read result:
the first stream byte, or the empty read `none` on an exhausted stream. -/
theorem gcpReadAux_head (fuel : Nat) (s : List Char) :
    ((gcpReadAux (fuel + 1) s []).1).head? = some s.head? := by
  cases s with
  | nil =>
    obtain ⟨t, ht⟩ := gcpReadAux_prefix fuel [] [none]
    have e1 : gcpReadAux (fuel + 1) ([] : List Char) [] = gcpReadAux fuel [] [none] := by
      simp [gcpReadAux]
    rw [e1, ht]
    rfl
  | cons c r =>
    by_cases hR : c = 'R'
    · subst hR
      simp [gcpReadAux]
    · obtain ⟨t, ht⟩ := gcpReadAux_prefix fuel r [some c]
      have e1 : gcpReadAux (fuel + 1) (c :: r) [] = gcpReadAux fuel r [some c] := by
        simp [gcpReadAux, hR]
      rw [e1, ht]
      rfl

/-- When the first byte is not `R` (so the loop does not stop at once), the
second buffer element is the second read result: the second stream byte, or
`none` when fewer than two bytes are available. -/
theorem gcpReadAux_second (fuel : Nat) (s : List Char) (h : s.head? ≠ some 'R') :
    ((gcpReadAux (fuel + 2) s []).1)[1]? = some s[1]? := by
  cases s with
  | nil =>
    obtain ⟨t, ht⟩ := gcpReadAux_prefix fuel [] [none, none]
    have e1 : gcpReadAux (fuel + 2) ([] : List Char) [] = gcpReadAux fuel [] [none, none] := by
      simp [gcpReadAux]
    rw [e1, ht]
    simp
  | cons c r =>
    have hc : ¬ (c = 'R') := by
      intro hcc
      exact h (by simp [hcc])
    cases r with
    | nil =>
      obtain ⟨t, ht⟩ := gcpReadAux_prefix fuel [] [some c, none]
      have e1 : gcpReadAux (fuel + 2) [c] [] = gcpReadAux fuel [] [some c, none] := by
        simp [gcpReadAux, hc]
      rw [e1, ht]
      simp
    | cons c2 r2 =>
      by_cases h2 : c2 = 'R'
      · subst h2
        have e1 : gcpReadAux (fuel + 2) (c :: 'R' :: r2) [] = ([some c, some 'R'], r2) := by
          simp [gcpReadAux, hc]
        rw [e1]
        simp
      · obtain ⟨t, ht⟩ := gcpReadAux_prefix fuel r2 [some c, some c2]
        have e1 : gcpReadAux (fuel + 2) (c :: c2 :: r2) [] =
            gcpReadAux fuel r2 [some c, some c2] := by
          simp [gcpReadAux, hc, h2]
        rw [e1, ht]
        simp

/-- A stream whose response fails the `ESC [` head check — first byte not
`ESC`, or second byte not `[` — makes `get_cursor_position` return the
sentinel -1, whether or not an `R` occurs. -/
theorem gcp_of_framing_fail {s : List Char}
    (h : s.head? ≠ some (Char.ofNat ESC) ∨ s[1]? ≠ some '[') :
    (get_cursor_position s).1 = Except.ok (-1) := by
  show gcpParse ((gcpReadAux 32 s []).1) = Except.ok (-1)
  rcases h with h | h
  · apply gcpParse_head_fail
    show ((gcpReadAux (31 + 1) s []).1).head? ≠ _
    rw [gcpReadAux_head 31 s]
    intro he
    exact h (Option.some.inj he)
  · by_cases hR : s.head? = some 'R'
    · apply gcpParse_head_fail
      show ((gcpReadAux (31 + 1) s []).1).head? ≠ _
      rw [gcpReadAux_head 31 s, hR]
      intro he
      have h3 := Option.some.inj (Option.some.inj he)
      exact absurd h3 (by decide)
    · apply gcpParse_second_fail
      show ((gcpReadAux (30 + 2) s []).1)[1]? ≠ _
      rw [gcpReadAux_second 30 s hR]
      intro he
      exact h (Option.some.inj he)

/-- When the first cursor query yields the sentinel -1, `get_columns` (on the
ioctl-failure path) returns the default width 80. -/
theorem get_columns_default {s : List Char}
    (h : (get_cursor_position s).1 = Except.ok (-1)) :
    get_columns none s = Except.ok 80 := by
  obtain ⟨r1, s1, hgcp⟩ : ∃ r1 s1, get_cursor_position s = (r1, s1) := ⟨_, _, rfl⟩
  rw [hgcp] at h
  simp only at h
  subst h
  simp [get_columns, hgcp]

/-- If the first 32 stream bytes hold no `R`, `get_cursor_position` returns
the sentinel -1. -/
theorem gcp_of_no_R {s : List Char} (hs : 'R' ∉ s.take 32) :
    (get_cursor_position s).1 = Except.ok (-1) := by
  show gcpParse ((gcpReadAux 32 s []).1) = Except.ok (-1)
  exact gcpParse_of_no_R (gcpReadAux_no_R 32 s [] hs (by simp))

/-- C4 amended: the column-query read consumes at most 32 bytes of the input
stream; a response with no terminating `R` within the 32-byte cap, or one
failing the `ESC [` head check (first byte not `ESC`, or second byte not
`[`), makes `get_columns` return the default width 80; and any value
`get_columns` returns normally is nonnegative.  A well-framed response whose
interior is not exactly `rows ; cols`, however, raises an uncaught
`ValueError` instead of returning the default (see the counterexample). -/
theorem C4_columns_amended :
    (∀ s : List Char, s.length ≤ ((get_cursor_position s).2).length + 32) ∧
    (∀ s : List Char,
      'R' ∉ s.take 32 ∨ s.head? ≠ some (Char.ofNat ESC) ∨ s[1]? ≠ some '[' →
      get_columns none s = Except.ok 80) ∧
    (∀ (io : Option (Nat × Nat)) (s : List Char) (n : Int),
      get_columns io s = Except.ok n → 0 ≤ n) := by
  refine ⟨?_, ?_, ?_⟩
  · intro s
    show s.length ≤ ((gcpReadAux 32 s []).2).length + 32
    exact gcpReadAux_consume 32 s []
  · intro s hs
    rcases hs with hs | hs
    · exact get_columns_default (gcp_of_no_R hs)
    · exact get_columns_default (gcp_of_framing_fail hs)
  · intro io s n h
    unfold get_columns at h
    cases io <;> dsimp only at h <;> repeat' split at h
    all_goals
      first
        | exact Except.noConfusion h
        | (have h2 := Except.ok.inj h
           omega)

/-- Witness for the amended C4 theorem at concrete inputs: a stream with no
`R` and a head-check-failing stream that contains an `R` both yield the
default width 80 through `get_columns`, and the consumption bound holds on a
concrete stream. -/
theorem C4_columns_amended_witness :
    (['x'] : List Char).length ≤ ((get_cursor_position ['x']).2).length + 32 ∧
    get_columns none ['x', 'y'] = Except.ok 80 ∧
    get_columns none ['1', '2', 'R'] = Except.ok 80 ∧
    (0 : Int) ≤ 80 := by
  exact ⟨C4_columns_amended.1 ['x'],
    C4_columns_amended.2.1 ['x', 'y'] (Or.inl (by decide)),
    C4_columns_amended.2.1 ['1', '2', 'R'] (Or.inr (Or.inl (by decide))),
    C4_columns_amended.2.2 none ['x', 'y'] 80 (by decide)⟩

/-- C8 amended: calling raw-mode disable when not enabled is a no-op, but a
second enable without an intervening disable is neither an error nor a no-op:
it silently re-snapshots the raw attributes as "original," so the following
disable restores the raw transformation of the initial attributes rather than
the initial attributes themselves. -/
theorem C8_rawmode_amended :
    (∀ w : World, w.ln.rawmode = false → disable_rawmode w = w) ∧
    (∀ w : World,
      ((enable_rawmode true ((enable_rawmode true w).2)).2).ln.orig_termios =
        some (mkRaw w.attrs) ∧
      (disable_rawmode ((enable_rawmode true ((enable_rawmode true w).2)).2)).attrs =
        mkRaw w.attrs) := by
  constructor
  · intro w h
    simp [disable_rawmode, h]
  · intro w
    simp [enable_rawmode, disable_rawmode]

/-- Witness for the amended C8 theorem at the concrete cooked-attribute
world. -/
theorem C8_rawmode_amended_witness :
    disable_rawmode world0 = world0 ∧
    ((enable_rawmode true ((enable_rawmode true world0).2)).2).ln.orig_termios =
      some (mkRaw cookedAttrs) ∧
    (disable_rawmode ((enable_rawmode true ((enable_rawmode true world0).2)).2)).attrs =
      mkRaw cookedAttrs := by
  exact ⟨C8_rawmode_amended.1 world0 rfl, C8_rawmode_amended.2 world0⟩

end Linenoise
